import Mathlib

/-!
Verification of the lambda deployment platform (package lambda, builtin/lambda).

The Go source is shallowly embedded: the external AWS services (IAM, Lambda,
S3, CloudWatch Logs) are modelled as an explicit world state threaded through
each operation, and every remote call records an operation in a trace so that
claims about which calls are and are not issued can be stated.  Transport
failures are injected through explicit fault records: a fault flag set at a
call site corresponds to that call returning a non-nil error in Go.
Cryptographic digests (SHA-256, base64-encoded) are modelled by an injective
stand-in function on the file content.
-/

namespace Lambda

/-! ## Association lists (Go maps and keyed remote collections) -/

def alist.find? {α β : Type} [DecidableEq α] (k : α) : List (α × β) → Option β
  | [] => none
  | (a, b) :: t => if k = a then some b else alist.find? k t

def alist.insert {α β : Type} [DecidableEq α] (k : α) (v : β) : List (α × β) → List (α × β)
  | [] => [(k, v)]
  | (a, b) :: t => if k = a then (k, v) :: t else (a, b) :: alist.insert k v t

/-! ## Data model (from the source) -/

def DefaultMemory : Nat := 256

def DefaultTimeout : Nat := 60

structure DeployConfig where
  Bucket : String
deriving DecidableEq

structure Deployer where
  config : DeployConfig
  roleName : String
  roleArn : String
deriving DecidableEq

structure Source where
  App : String
deriving DecidableEq

/-- Build metadata record (fields as used by CreateFunction / CreateLayer). -/
structure AppInfo where
  Runtime : String
  BuildId : String
  AppZip : String
  PreZip : String
  LibZip : String
deriving DecidableEq

/-- One published version of a named layer, as returned by GetLayerVersion. -/
structure LayerVersion where
  Version : Nat
  CodeSha256 : String
  LayerVersionArn : String
deriving DecidableEq

/-- A deployed function's configuration, as returned by GetFunction.
Environment none models a nil Environment pointer in the AWS response. -/
structure FunctionConfig where
  Handler : String
  Role : String
  Runtime : String
  Timeout : Nat
  MemorySize : Nat
  Layers : List String
  Environment : Option (List (String × String))
deriving DecidableEq

/-- The external world: local files, the S3 bucket contents, the layer
versions per layer name, the deployed functions, and a counter used to mint
published-version ARNs. -/
structure World where
  files : List (String × String)
  s3 : List ((String × String) × String)
  layerVersions : List (String × List LayerVersion)
  functions : List (String × FunctionConfig)
  versionCounter : Nat
deriving DecidableEq

/-- Remote calls issued by the deployer, recorded in order. -/
inductive Op where
  | listLayerVersions (name : String)
  | getLayerVersion (name : String) (version : Nat)
  | headObject (bucket key : String)
  | upload (bucket key : String)
  | publishLayerVersion (name : String)
  | getFunction (name : String)
  | updateFunctionConfiguration (name : String)
  | updateFunctionCode (name : String)
  | publishVersion (name : String)
  | createFunction (name : String)
deriving DecidableEq

/-- True for the operations CreateLayer itself can issue. -/
def Op.isLayerOp : Op → Bool
  | .listLayerVersions _ => true
  | .getLayerVersion _ _ => true
  | .headObject _ _ => true
  | .upload _ _ => true
  | .publishLayerVersion _ => true
  | _ => false

/-- Result of a deployer call: the returned string and error (mirroring Go's
(string, error) pair), the world after the call, and the trace of remote
calls issued. -/
structure CallResult where
  arn : String
  err : Option String
  world : World
  ops : List Op
deriving DecidableEq

/-- Transport faults injected into one CreateLayer call.  getErr is indexed
by the version number passed to GetLayerVersion. -/
structure LayerFaults where
  listErr : Bool := false
  getErr : Nat → Bool := fun _ => false
  headErr : Bool := false
  uploadErr : Bool := false
  publishErr : Bool := false

/-! ## ContentHasher (HashFile / LambdaCodeSha256) -/

/-- Abstract stand-in for the base64-encoded SHA-256 content digest. -/
def lambdaCodeSha256OfContent (c : String) : String := "b64:" ++ c

/-- HashFile: read and digest a local file; none models an open/read error. -/
def HashFile (w : World) (path : String) : Option String :=
  alist.find? path w.files

/-- LambdaCodeSha256: base64-encoded digest of a local file. -/
def LambdaCodeSha256 (w : World) (path : String) : Option String :=
  (HashFile w path).map lambdaCodeSha256OfContent

/-! ## LayerPublisher (CreateLayer) -/

/-- The derived S3 key for a layer artifact:
fmt.Sprintf("%s-%s-%s.zip", app.App, info.BuildId, name). -/
def layerKey (app : Source) (info : AppInfo) (name : String) : String :=
  app.App ++ "-" ++ info.BuildId ++ "-" ++ name ++ ".zip"

/-- Outcome of the version scan loop in CreateLayer. -/
inductive ScanOutcome where
  | found (arn : String)
  | fail (e : String)
  | noMatch
deriving DecidableEq

/-- The loop over list.LayerVersions: GetLayerVersion each version in order;
a failed detail fetch aborts with that error; the first digest match returns
that version's ARN. -/
def scanLayerVersions (fl : LayerFaults) (name sum : String) :
    List LayerVersion → ScanOutcome × List Op
  | [] => (.noMatch, [])
  | ver :: rest =>
    if fl.getErr ver.Version then
      (.fail "GetLayerVersion: transport error", [Op.getLayerVersion name ver.Version])
    else if ver.CodeSha256 = sum then
      (.found ver.LayerVersionArn, [Op.getLayerVersion name ver.Version])
    else
      let r := scanLayerVersions fl name sum rest
      (r.1, Op.getLayerVersion name ver.Version :: r.2)

/-- PublishLayerVersion: on success appends a new version whose stored digest
is the digest of the S3 object content, with a platform-assigned version
number and ARN.  A failure is wrapped ("attempting to publish: %s", path). -/
def publishLayer (name path objContent : String)
    (w : World) (fl : LayerFaults) (ops : List Op) : CallResult :=
  if fl.publishErr then
    ⟨"", some ("attempting to publish: " ++ path ++ ": transport error"), w,
     ops ++ [Op.publishLayerVersion name]⟩
  else
    let versions := (alist.find? name w.layerVersions).getD []
    let n := versions.length + 1
    let arn := "arn:layer:" ++ name ++ ":" ++ toString n
    let nv : LayerVersion := ⟨n, lambdaCodeSha256OfContent objContent, arn⟩
    ⟨arn, none,
     { w with layerVersions := alist.insert name (versions ++ [nv]) w.layerVersions },
     ops ++ [Op.publishLayerVersion name]⟩

/-- The storage path of CreateLayer: HeadObject on the derived key; reuse the
object if the head succeeds, otherwise upload the local file.  NOTE the
faithful reproduction of the source's silent error swallow: a failed upload
returns ("", nil) — an empty reference with a nil error — instead of
propagating the error (source line: return "", nil). -/
def uploadAndPublishLayer (d : Deployer) (app : Source) (info : AppInfo)
    (name path content : String) (w : World) (fl : LayerFaults) : CallResult :=
  let b := d.config.Bucket
  let key := layerKey app info name
  if ((alist.find? (b, key) w.s3).isSome && !fl.headErr) then
    publishLayer name path ((alist.find? (b, key) w.s3).getD "") w fl
      [Op.headObject b key]
  else if fl.uploadErr then
    ⟨"", none, w, [Op.headObject b key, Op.upload b key]⟩
  else
    publishLayer name path content
      { w with s3 := alist.insert (b, key) content w.s3 } fl
      [Op.headObject b key, Op.upload b key]

/-- Prepend already-issued operations to a call result. -/
def prependOps (ops : List Op) (r : CallResult) : CallResult :=
  { r with ops := ops ++ r.ops }

/-- CreateLayer: digest the local file; list the layer's versions (a listing
error is swallowed and treated as no versions); scan them for a digest match
and return the matching version's ARN without touching storage; otherwise
head/upload the derived key and publish a new version. -/
def CreateLayer (d : Deployer) (app : Source) (info : AppInfo) (name path : String)
    (w : World) (fl : LayerFaults) : CallResult :=
  match HashFile w path with
  | none => ⟨"", some "LambdaCodeSha256: open error", w, []⟩
  | some content =>
    let sum := lambdaCodeSha256OfContent content
    let versions := (alist.find? name w.layerVersions).getD []
    if fl.listErr then
      prependOps [Op.listLayerVersions name]
        (uploadAndPublishLayer d app info name path content w fl)
    else
      match scanLayerVersions fl name sum versions with
      | (.found arn, sOps) => ⟨arn, none, w, Op.listLayerVersions name :: sOps⟩
      | (.fail e, sOps) => ⟨"", some e, w, Op.listLayerVersions name :: sOps⟩
      | (.noMatch, sOps) =>
        prependOps (Op.listLayerVersions name :: sOps)
          (uploadAndPublishLayer d app info name path content w fl)

/-- CreateLibraryLayer: CreateLayer at name fmt.Sprintf("%s-lib", app.App). -/
def CreateLibraryLayer (d : Deployer) (app : Source) (info : AppInfo) (path : String)
    (w : World) (fl : LayerFaults) : CallResult :=
  CreateLayer d app info (app.App ++ "-lib") path w fl

/-- CreatePreLayer: CreateLayer at name fmt.Sprintf("%s-pre", app.App). -/
def CreatePreLayer (d : Deployer) (app : Source) (info : AppInfo) (path : String)
    (w : World) (fl : LayerFaults) : CallResult :=
  CreateLayer d app info (app.App ++ "-pre") path w fl

/-- The versions of a named layer visible in a world. -/
def oldVersions (w : World) (name : String) : List LayerVersion :=
  (alist.find? name w.layerVersions).getD []

/-- The ARN the platform assigns to the next published version of a layer. -/
def freshArn (w : World) (name : String) : String :=
  "arn:layer:" ++ name ++ ":" ++ toString ((oldVersions w name).length + 1)

/-- The layer version a fresh publish of content c appends. -/
def freshVersion (w : World) (name c : String) : LayerVersion :=
  ⟨(oldVersions w name).length + 1, lambdaCodeSha256OfContent c, freshArn w name⟩

/-- The world after a fresh publish of content c for the named layer
(bucket contents aside). -/
def layerPublishedWorld (w : World) (name c : String) : World :=
  { w with layerVersions :=
      alist.insert name (oldVersions w name ++ [freshVersion w name c]) w.layerVersions }

/-! ## FunctionReconciler (CreateFunction) -/

/-- Transport faults injected into one CreateFunction call. -/
structure FnFaults where
  appUploadErr : Bool := false
  pre : LayerFaults := {}
  lib : LayerFaults := {}
  getFunctionErr : Bool := false
  updateConfigErr : Bool := false
  updateCodeErr : Bool := false
  publishVersionErr : Bool := false
  createFunctionErr : Bool := false

/-- The derived S3 key for the application package:
fmt.Sprintf("%s-%s-app.zip", app.App, info.BuildId). -/
def appKey (app : Source) (info : AppInfo) : String :=
  app.App ++ "-" ++ info.BuildId ++ "-app.zip"

/-- UpdateFunctionCode followed by PublishVersion (tail of the update path). -/
def codeAndPublish (app : Source) (w : World) (ff : FnFaults) (ops : List Op) : CallResult :=
  if ff.updateCodeErr then
    ⟨"", some "UpdateFunctionCode: transport error", w,
     ops ++ [Op.updateFunctionCode app.App]⟩
  else if ff.publishVersionErr then
    ⟨"", some "PublishVersion: transport error", w,
     ops ++ [Op.updateFunctionCode app.App, Op.publishVersion app.App]⟩
  else
    let n := w.versionCounter + 1
    ⟨"arn:fnver:" ++ app.App ++ ":" ++ toString n, none,
     { w with versionCounter := n },
     ops ++ [Op.updateFunctionCode app.App, Op.publishVersion app.App]⟩

/-- The update path of CreateFunction (function already exists): the layer
diff check — UpdateFunctionConfiguration runs only when some attached layer
ARN is neither the pre nor the lib layer reference — then unconditionally
UpdateFunctionCode and PublishVersion. -/
def updatePath (d : Deployer) (app : Source) (info : AppInfo)
    (preLayer libLayer : String) (cfg : FunctionConfig) (w : World) (ff : FnFaults) :
    CallResult :=
  let newLayers := cfg.Layers.any (fun l => !(l == preLayer || l == libLayer))
  if newLayers then
    if ff.updateConfigErr then
      ⟨"", some "UpdateFunctionConfiguration: transport error", w,
       [Op.updateFunctionConfiguration app.App]⟩
    else
      let cfg2 : FunctionConfig :=
        { cfg with Layers := [preLayer, libLayer], Handler := "app.handler",
                   Role := d.roleArn, Timeout := DefaultTimeout,
                   MemorySize := DefaultMemory, Runtime := info.Runtime }
      codeAndPublish app { w with functions := alist.insert app.App cfg2 w.functions } ff
        [Op.updateFunctionConfiguration app.App]
  else
    codeAndPublish app w ff []

/-- The create path of CreateFunction (no function yet): CreateFunction with
the two layer references, fixed handler/timeout/memory, the resolved role and
the build's runtime, then PublishVersion. -/
def createPath (d : Deployer) (app : Source) (info : AppInfo)
    (preLayer libLayer : String) (w : World) (ff : FnFaults) : CallResult :=
  if ff.createFunctionErr then
    ⟨"", some "CreateFunction: transport error", w, [Op.createFunction app.App]⟩
  else
    let cfg : FunctionConfig :=
      ⟨"app.handler", d.roleArn, info.Runtime, DefaultTimeout, DefaultMemory,
       [preLayer, libLayer], none⟩
    let w2 := { w with functions := alist.insert app.App cfg w.functions }
    if ff.publishVersionErr then
      ⟨"", some "PublishVersion: transport error", w2,
       [Op.createFunction app.App, Op.publishVersion app.App]⟩
    else
      let n := w2.versionCounter + 1
      ⟨"arn:fnver:" ++ app.App ++ ":" ++ toString n, none,
       { w2 with versionCounter := n },
       [Op.createFunction app.App, Op.publishVersion app.App]⟩

/-- CreateFunction: upload the application package (unconditionally, before
anything else), publish the pre layer then the lib layer, look up the
function by name, and take the update or create path. -/
def CreateFunction (d : Deployer) (app : Source) (info : AppInfo) (w : World)
    (ff : FnFaults) : CallResult :=
  match HashFile w info.AppZip with
  | none => ⟨"", some "Open: no such file", w, []⟩
  | some content =>
    let b := d.config.Bucket
    let key := appKey app info
    if ff.appUploadErr then
      ⟨"", some "Upload: transport error", w, [Op.upload b key]⟩
    else
      let w1 := { w with s3 := alist.insert (b, key) content w.s3 }
      let rPre := CreatePreLayer d app info info.PreZip w1 ff.pre
      match rPre.err with
      | some e => ⟨"", some e, rPre.world, Op.upload b key :: rPre.ops⟩
      | none =>
        let rLib := CreateLibraryLayer d app info info.LibZip rPre.world ff.lib
        match rLib.err with
        | some e => ⟨"", some e, rLib.world, Op.upload b key :: (rPre.ops ++ rLib.ops)⟩
        | none =>
          let w3 := rLib.world
          let baseOps := Op.upload b key ::
            (rPre.ops ++ rLib.ops ++ [Op.getFunction app.App])
          match (if ff.getFunctionErr then none else alist.find? app.App w3.functions) with
          | some cfg => prependOps baseOps (updatePath d app info rPre.arn rLib.arn cfg w3 ff)
          | none => prependOps baseOps (createPath d app info rPre.arn rLib.arn w3 ff)

/-! ## ConfigMutator (ConfigSet / ConfigGet) -/

structure ConfigVar where
  Name : String
  Value : String
deriving DecidableEq

/-- Transport faults injected into one ConfigSet / ConfigGet call. -/
structure ConfigFaults where
  getFunctionErr : Bool := false
  updateConfigErr : Bool := false
  publishVersionErr : Bool := false

/-- ConfigSet: fetch the configuration, take its environment map (empty when
the Environment pointer is nil), copy the layer ARNs, insert/overwrite the
variable, write the whole configuration back (handler, role, timeout, memory,
runtime and layers verbatim), then publish a new version. -/
def ConfigSet (app : Source) (cv : ConfigVar) (w : World)
    (cf : ConfigFaults) : CallResult :=
  match (if cf.getFunctionErr then none else alist.find? app.App w.functions) with
  | none => ⟨"", some "GetFunction: transport error", w, [Op.getFunction app.App]⟩
  | some cur =>
    let envvars := cur.Environment.getD []
    let layers := cur.Layers
    let envvars2 := alist.insert cv.Name cv.Value envvars
    if cf.updateConfigErr then
      ⟨"", some "UpdateFunctionConfiguration: transport error", w,
       [Op.getFunction app.App, Op.updateFunctionConfiguration app.App]⟩
    else
      let cfg2 : FunctionConfig :=
        ⟨cur.Handler, cur.Role, cur.Runtime, cur.Timeout, cur.MemorySize,
         layers, some envvars2⟩
      let w2 := { w with functions := alist.insert app.App cfg2 w.functions }
      if cf.publishVersionErr then
        ⟨"", some "PublishVersion: transport error", w2,
         [Op.getFunction app.App, Op.updateFunctionConfiguration app.App,
          Op.publishVersion app.App]⟩
      else
        ⟨"", none, { w2 with versionCounter := w2.versionCounter + 1 },
         [Op.getFunction app.App, Op.updateFunctionConfiguration app.App,
          Op.publishVersion app.App]⟩

/-- Possible outcomes of ConfigGet.  nilDeref models the Go runtime panic
raised by cur.Environment.Variables when Environment is a nil pointer (the
source dereferences it without the nil check that ConfigSet performs). -/
inductive GetOutcome where
  | ok (value : String)
  | transportErr (e : String)
  | errNoSuchVariable
  | nilDeref
deriving DecidableEq

/-- ConfigGet: fetch the configuration and look the variable up in its
environment map; a missing variable yields component.ErrNoSuchVariable; a nil
Environment pointer makes the lookup panic. -/
def ConfigGet (app : Source) (name : String) (w : World)
    (cf : ConfigFaults) : GetOutcome × List Op :=
  match (if cf.getFunctionErr then none else alist.find? app.App w.functions) with
  | none => (.transportErr "GetFunction: transport error", [Op.getFunction app.App])
  | some cur =>
    match cur.Environment with
    | none => (.nilDeref, [Op.getFunction app.App])
    | some env =>
      match alist.find? name env with
      | some v => (.ok v, [Op.getFunction app.App])
      | none => (.errNoSuchVariable, [Op.getFunction app.App])

/-! ## LogReader (cloudwatchLogsViewer.NextLogBatch, Logs) -/

/-- A raw CloudWatch log event: epoch-millisecond timestamp and message. -/
structure RawEvent where
  Timestamp : Nat
  Message : String
deriving DecidableEq

/-- A log stream (partition).  pages are the successive GetLogEvents result
pages in forward-token order; past the listed pages the service keeps
returning an empty page, which is how the code detects exhaustion. -/
structure LogStream where
  LogStreamName : String
  lastEventTime : Nat
  pages : List (List RawEvent)
deriving DecidableEq

/-- A Go time.Time produced by time.Unix(sec, nsec). -/
structure GoTime where
  sec : Nat
  nsec : Nat
deriving DecidableEq

/-- component.LogEvent. -/
structure LogEvent where
  Partition : String
  Timestamp : GoTime
  Message : String
deriving DecidableEq

/-- time.Unix(ms/1000, (ms%1000)*1000000). -/
def timeUnixMs (ms : Nat) : GoTime :=
  ⟨ms / 1000, (ms % 1000) * 1000000⟩

/-- strings.TrimRight(msg, "\n\t"): remove trailing newline and tab
characters (and only those). -/
def trimRightNlTab (s : String) : String :=
  ⟨(s.data.reverse.dropWhile (fun c => c == '\n' || c == '\t')).reverse⟩

/-- Translation of one raw event while stream c.stream is active. -/
def translateEvent (streamName : String) (ev : RawEvent) : LogEvent :=
  ⟨streamName, timeUnixMs ev.Timestamp, trimRightNlTab ev.Message⟩

/-- The viewer state: remaining streams, the active stream, and the last
forward token (none means start from head). -/
structure ViewerState where
  group : String
  streams : List LogStream
  stream : Option LogStream
  lastToken : Option Nat
deriving DecidableEq

/-- The page index requested for a token (nil token reads from the head). -/
def pageIndex : Option Nat → Nat
  | none => 0
  | some t => t

/-- One GetLogEvents call on the active stream: the page at the token's
index and the next forward token; none when the page is empty. -/
def fetchActive (p : LogStream) (tok : Option Nat) : Option (List RawEvent × Nat) :=
  let idx := pageIndex tok
  let page := p.pages.getD idx []
  if page.isEmpty then none else some (page, idx + 1)

/-- The part of the NextLogBatch loop that runs with no active stream:
activate streams in order (resetting the token), skipping those whose first
page is empty, until a non-empty page or the end of the list.  The third
component counts the GetLogEvents requests issued. -/
def advanceStreams (g : String) (tok : Option Nat) :
    List LogStream → List LogEvent × ViewerState × Nat
  | [] => ([], ⟨g, [], none, tok⟩, 0)
  | p :: rest =>
    match fetchActive p none with
    | some (page, nextTok) =>
      (page.map (translateEvent p.LogStreamName), ⟨g, rest, some p, some nextTok⟩, 1)
    | none =>
      let r := advanceStreams g none rest
      (r.1, r.2.1, r.2.2 + 1)

/-- NextLogBatch: fetch the next page of the active stream; a non-empty page
is translated and returned with the forward token retained; an empty page
deactivates the stream and the loop advances to the next stream within the
same call; with no active stream and no streams left, return the empty
end-of-sequence signal. -/
def NextLogBatch (s : ViewerState) : List LogEvent × ViewerState × Nat :=
  match s.stream with
  | some p =>
    match fetchActive p s.lastToken with
    | some (page, nextTok) =>
      (page.map (translateEvent p.LogStreamName),
       ⟨s.group, s.streams, some p, some nextTok⟩, 1)
    | none =>
      let r := advanceStreams s.group s.lastToken s.streams
      (r.1, r.2.1, r.2.2 + 1)
  | none => advanceStreams s.group s.lastToken s.streams

/-- Logs: DescribeLogStreams ordered ascending by LastEventTime yields the
stream list; the viewer starts with no active stream. -/
def Logs (app : Source) (streams : List LogStream) : ViewerState :=
  ⟨"/aws/lambda/" ++ app.App, streams, none, none⟩

/-- All events of one stream in order, translated. -/
def streamEvents (p : LogStream) : List LogEvent :=
  p.pages.flatten.map (translateEvent p.LogStreamName)

/-- The events a viewer state has yet to produce. -/
def remainingEvents (s : ViewerState) : List LogEvent :=
  (match s.stream with
   | none => []
   | some p => ((p.pages.drop (pageIndex s.lastToken)).flatten).map
       (translateEvent p.LogStreamName))
  ++ (s.streams.map streamEvents).flatten

/-- Termination measure for repeated NextLogBatch calls. -/
def streamsWeight (streams : List LogStream) : Nat :=
  (streams.map (fun p => p.pages.length + 1)).sum

/-- Weight of a viewer state: strictly decreases on every non-empty batch. -/
def weight (s : ViewerState) : Nat :=
  (match s.stream with
   | none => 0
   | some p => p.pages.length + 1 - pageIndex s.lastToken)
  + streamsWeight s.streams

/-- Every page of the stream is non-empty: the log service signals the end
of a stream by an empty page after all event pages. -/
def pagesWF (p : LogStream) : Prop := ∀ page ∈ p.pages, page ≠ []

/-- Well-formedness of a viewer state. -/
def stateWF (s : ViewerState) : Prop :=
  (∀ p ∈ s.streams, pagesWF p) ∧ (∀ p, s.stream = some p → pagesWF p)

/-- Repeated NextLogBatch calls, stopping at the first empty batch; fuel
bounds the number of calls (weight s + 1 always suffices). -/
def drainWithFuel : Nat → ViewerState → List (List LogEvent) × ViewerState
  | 0, s => ([], s)
  | fuel + 1, s =>
    let r := NextLogBatch s
    if r.1 = [] then ([], r.2.1)
    else
      let dr := drainWithFuel fuel r.2.1
      (r.1 :: dr.1, dr.2)

/-- The whole sequence of batches a viewer produces, and the state in which
the end-of-sequence signal is returned. -/
def drainLog (s : ViewerState) : List (List LogEvent) × ViewerState :=
  drainWithFuel (weight s + 1) s

/-- Modelled from the spec: "message trimmed of trailing whitespace/newlines"
read literally, i.e. removing every trailing whitespace character.  Used only
to compare the spec's wording against the source's TrimRight cutset. -/
def trimTrailingWhitespaceSpec (s : String) : String :=
  ⟨(s.data.reverse.dropWhile Char.isWhitespace).reverse⟩

/-! ## Concrete fixtures for counterexamples, bug evaluations and witnesses -/

def dep : Deployer := ⟨⟨"bkt"⟩, "lambda-myapp", "arn:role:myapp"⟩

def src : Source := ⟨"myapp"⟩

def binfo : AppInfo := ⟨"ruby2.5", "b1", "app.zip", "pre.zip", "lib.zip"⟩

/-- A world with only a local pre-layer artifact: no layer versions, empty
bucket. -/
def wNoLayers : World := ⟨[("pre.zip", "P")], [], [], [], 0⟩

/-- A deployed function whose configuration has a nil Environment pointer
and no attached layers. -/
def cfgNilEnv : FunctionConfig :=
  ⟨"app.handler", "arn:role:myapp", "ruby2.5", 60, 256, [], none⟩

def wNilEnv : World := ⟨[], [], [], [("myapp", cfgNilEnv)], 0⟩

def wEmptyEnv : World :=
  ⟨[], [], [], [("myapp", { cfgNilEnv with Environment := some [] })], 0⟩

def wEnvX : World :=
  ⟨[], [], [], [("myapp", { cfgNilEnv with Environment := some [("X", "7")] })], 0⟩

/-- A world with all three build artifacts and an existing function that has
no layers attached: the update path with an attached layer set that is a
strict subset (empty) of the published pair. -/
def wUpdate : World :=
  ⟨[("app.zip", "A"), ("pre.zip", "P"), ("lib.zip", "L")], [], [],
   [("myapp", cfgNilEnv)], 0⟩

/-- An existing layer version with a digest that matches no local artifact. -/
def verQ : LayerVersion := ⟨1, "b64:Q", "arn:layer:npre:1"⟩

/-- A world with one existing version of layer npre. -/
def wVersioned : World := ⟨[("pre.zip", "P")], [], [("npre", [verQ])], [], 0⟩

/-- One log stream whose single page has one raw event with a trailing
space kept under the message's trailing newline. -/
def streamTrail : LogStream := ⟨"s1", 5, [[⟨1500, "hi \n"⟩]]⟩

def vsTrail : ViewerState := ⟨"g", [], some streamTrail, none⟩

/-- Three event-bearing partitions with last-event times 1 < 2 < 3 and one
empty partition in between. -/
def ls1 : LogStream := ⟨"p1", 1, [[⟨100, "a"⟩], [⟨200, "b"⟩]]⟩

def ls2 : LogStream := ⟨"p2", 2, [[⟨300, "c"⟩]]⟩

def lsE : LogStream := ⟨"pE", 2, []⟩

def ls3 : LogStream := ⟨"p3", 3, [[⟨400, "d"⟩, ⟨500, "e"⟩]]⟩

end Lambda

namespace Lambda

/-! ## Association-list lemmas -/

theorem alist.find?_insert {α β : Type} [DecidableEq α] (k k2 : α) (v : β)
    (l : List (α × β)) :
    alist.find? k (alist.insert k2 v l) =
      if k = k2 then some v else alist.find? k l := by
  induction l with
  | nil => simp [alist.insert, alist.find?]
  | cons hd tl ih =>
    obtain ⟨a, b⟩ := hd
    by_cases h2 : k2 = a
    · subst h2
      by_cases h : k = k2 <;> simp [alist.insert, alist.find?, h]
    · by_cases h3 : k = a
      · subst h3
        have hk2 : ¬k = k2 := fun h => h2 h.symm
        simp [alist.insert, alist.find?, h2, hk2]
      · simp [alist.insert, alist.find?, h2, h3, ih]

theorem alist.find?_insert_self {α β : Type} [DecidableEq α] (k : α) (v : β)
    (l : List (α × β)) : alist.find? k (alist.insert k v l) = some v := by
  simp [alist.find?_insert]

/-! ## Layer-scan lemmas -/

theorem scan_noMatch_of (fl : LayerFaults) (name sum : String)
    (vs : List LayerVersion)
    (h : ∀ v ∈ vs, fl.getErr v.Version = false ∧ v.CodeSha256 ≠ sum) :
    scanLayerVersions fl name sum vs =
      (.noMatch, vs.map fun v => Op.getLayerVersion name v.Version) := by
  induction vs with
  | nil => rfl
  | cons v rest ih =>
    have hv := h v (by simp)
    simp [scanLayerVersions, hv.1, hv.2, ih (fun u hu => h u (by simp [hu]))]

theorem scan_append_noMatch (fl : LayerFaults) (name sum : String)
    (pre tail : List LayerVersion)
    (h : ∀ v ∈ pre, fl.getErr v.Version = false ∧ v.CodeSha256 ≠ sum) :
    scanLayerVersions fl name sum (pre ++ tail) =
      ((scanLayerVersions fl name sum tail).1,
       (pre.map fun v => Op.getLayerVersion name v.Version) ++
         (scanLayerVersions fl name sum tail).2) := by
  induction pre with
  | nil => simp
  | cons v rest ih =>
    have hv := h v (by simp)
    simp [scanLayerVersions, hv.1, hv.2, ih (fun u hu => h u (by simp [hu]))]

theorem scan_cons_found (fl : LayerFaults) (name sum : String) (v : LayerVersion)
    (rest : List LayerVersion) (hget : fl.getErr v.Version = false)
    (hsum : v.CodeSha256 = sum) :
    scanLayerVersions fl name sum (v :: rest) =
      (.found v.LayerVersionArn, [Op.getLayerVersion name v.Version]) := by
  simp [scanLayerVersions, hget, hsum]

theorem scan_cons_fail (fl : LayerFaults) (name sum : String) (v : LayerVersion)
    (rest : List LayerVersion) (hget : fl.getErr v.Version = true) :
    scanLayerVersions fl name sum (v :: rest) =
      (.fail "GetLayerVersion: transport error", [Op.getLayerVersion name v.Version]) := by
  simp [scanLayerVersions, hget]

theorem scan_ops_are_gets (fl : LayerFaults) (name sum : String)
    (vs : List LayerVersion) :
    ∀ o ∈ (scanLayerVersions fl name sum vs).2, ∃ n, o = Op.getLayerVersion name n := by
  induction vs with
  | nil => simp [scanLayerVersions]
  | cons v rest ih =>
    intro o ho
    by_cases h1 : fl.getErr v.Version
    · simp [scanLayerVersions, h1] at ho
      exact ⟨v.Version, ho⟩
    · by_cases h2 : v.CodeSha256 = sum
      · simp [scanLayerVersions, h1, h2] at ho
        exact ⟨v.Version, ho⟩
      · simp [scanLayerVersions, h1, h2] at ho
        rcases ho with ho | ho
        · exact ⟨v.Version, ho⟩
        · exact ih o ho

theorem scan_fail_has_fault (fl : LayerFaults) (name sum : String)
    (vs : List LayerVersion) (e : String)
    (h : (scanLayerVersions fl name sum vs).1 = .fail e) :
    ∃ v ∈ vs, fl.getErr v.Version = true := by
  induction vs with
  | nil => simp [scanLayerVersions] at h
  | cons v rest ih =>
    by_cases h1 : fl.getErr v.Version
    · exact ⟨v, by simp, h1⟩
    · by_cases h2 : v.CodeSha256 = sum
      · simp [scanLayerVersions, h1, h2] at h
      · simp [scanLayerVersions, h1, h2] at h
        obtain ⟨u, hu, hf⟩ := ih h
        exact ⟨u, by simp [hu], hf⟩

/-! ## CreateLayer characterization lemmas -/

theorem createLayer_listErr (d : Deployer) (app : Source) (info : AppInfo)
    (name path content : String) (w : World) (fl : LayerFaults)
    (hf : HashFile w path = some content) (hl : fl.listErr = true) :
    CreateLayer d app info name path w fl =
      prependOps [Op.listLayerVersions name]
        (uploadAndPublishLayer d app info name path content w fl) := by
  simp [CreateLayer, hf, hl]

theorem createLayer_scan_found (d : Deployer) (app : Source) (info : AppInfo)
    (name path content arn : String) (w : World) (fl : LayerFaults) (sOps : List Op)
    (hf : HashFile w path = some content) (hl : fl.listErr = false)
    (hscan : scanLayerVersions fl name (lambdaCodeSha256OfContent content)
        ((alist.find? name w.layerVersions).getD []) = (.found arn, sOps)) :
    CreateLayer d app info name path w fl =
      ⟨arn, none, w, Op.listLayerVersions name :: sOps⟩ := by
  simp [CreateLayer, hf, hl, hscan]

theorem createLayer_scan_fail (d : Deployer) (app : Source) (info : AppInfo)
    (name path content e : String) (w : World) (fl : LayerFaults) (sOps : List Op)
    (hf : HashFile w path = some content) (hl : fl.listErr = false)
    (hscan : scanLayerVersions fl name (lambdaCodeSha256OfContent content)
        ((alist.find? name w.layerVersions).getD []) = (.fail e, sOps)) :
    CreateLayer d app info name path w fl =
      ⟨"", some e, w, Op.listLayerVersions name :: sOps⟩ := by
  simp [CreateLayer, hf, hl, hscan]

theorem createLayer_scan_noMatch (d : Deployer) (app : Source) (info : AppInfo)
    (name path content : String) (w : World) (fl : LayerFaults) (sOps : List Op)
    (hf : HashFile w path = some content) (hl : fl.listErr = false)
    (hscan : scanLayerVersions fl name (lambdaCodeSha256OfContent content)
        ((alist.find? name w.layerVersions).getD []) = (.noMatch, sOps)) :
    CreateLayer d app info name path w fl =
      prependOps (Op.listLayerVersions name :: sOps)
        (uploadAndPublishLayer d app info name path content w fl) := by
  simp [CreateLayer, hf, hl, hscan]

/-! ## Upload-and-publish characterization lemmas -/

theorem LayerFaults.empty_flags :
    (({} : LayerFaults)).listErr = false ∧ (({} : LayerFaults)).headErr = false
    ∧ (({} : LayerFaults)).uploadErr = false ∧ (({} : LayerFaults)).publishErr = false
    ∧ ∀ n, (({} : LayerFaults)).getErr n = false := by
  refine ⟨rfl, rfl, rfl, rfl, fun n => rfl⟩

theorem uploadPub_head_none (d : Deployer) (app : Source) (info : AppInfo)
    (name path content : String) (w : World) (fl : LayerFaults)
    (hkey : alist.find? (d.config.Bucket, layerKey app info name) w.s3 = none)
    (hu : fl.uploadErr = false) :
    uploadAndPublishLayer d app info name path content w fl =
      publishLayer name path content
        { w with s3 := alist.insert (d.config.Bucket, layerKey app info name) content w.s3 }
        fl
        [Op.headObject d.config.Bucket (layerKey app info name),
         Op.upload d.config.Bucket (layerKey app info name)] := by
  simp [uploadAndPublishLayer, hkey, hu]

theorem uploadPub_head_some (d : Deployer) (app : Source) (info : AppInfo)
    (name path content c0 : String) (w : World) (fl : LayerFaults)
    (hkey : alist.find? (d.config.Bucket, layerKey app info name) w.s3 = some c0)
    (hh : fl.headErr = false) :
    uploadAndPublishLayer d app info name path content w fl =
      publishLayer name path c0 w fl
        [Op.headObject d.config.Bucket (layerKey app info name)] := by
  simp [uploadAndPublishLayer, hkey, hh]

theorem publishLayer_ok (name path objContent : String) (w : World)
    (fl : LayerFaults) (ops : List Op) (hp : fl.publishErr = false) :
    publishLayer name path objContent w fl ops =
      ⟨freshArn w name, none, layerPublishedWorld w name objContent,
       ops ++ [Op.publishLayerVersion name]⟩ := by
  simp [publishLayer, hp, freshArn, freshVersion, oldVersions, layerPublishedWorld]

/-- A fresh CreateLayer publish with no faults: no existing digest matches
and the derived key, when occupied, holds the same bytes as the local file;
the call succeeds, appends exactly the fresh version, preserves everything
else in the world but the bucket, and its trace consists of layer operations
ending in the publish. -/
theorem createLayer_fresh_eq (d : Deployer) (app : Source) (info : AppInfo)
    (name path c : String) (w : World)
    (hf : HashFile w path = some c)
    (hnm : ∀ v ∈ oldVersions w name, v.CodeSha256 ≠ lambdaCodeSha256OfContent c)
    (hkey : ∀ c0, alist.find? (d.config.Bucket, layerKey app info name) w.s3 = some c0 →
      c0 = c) :
    ∃ s3post ops,
      CreateLayer d app info name path w {} =
        ⟨freshArn w name, none, { layerPublishedWorld w name c with s3 := s3post }, ops⟩
      ∧ Op.publishLayerVersion name ∈ ops := by
  have hscan : scanLayerVersions ({} : LayerFaults) name (lambdaCodeSha256OfContent c)
      ((alist.find? name w.layerVersions).getD []) =
      (.noMatch, ((alist.find? name w.layerVersions).getD []).map
        (fun v => Op.getLayerVersion name v.Version)) :=
    scan_noMatch_of _ _ _ _ (fun v hv => ⟨rfl, hnm v hv⟩)
  have hbase := createLayer_scan_noMatch d app info name path c w {} _ hf rfl hscan
  cases hs : alist.find? (d.config.Bucket, layerKey app info name) w.s3 with
  | none =>
    refine ⟨alist.insert (d.config.Bucket, layerKey app info name) c w.s3,
      (Op.listLayerVersions name ::
        ((alist.find? name w.layerVersions).getD []).map
          (fun v => Op.getLayerVersion name v.Version)) ++
        ([Op.headObject d.config.Bucket (layerKey app info name),
          Op.upload d.config.Bucket (layerKey app info name)] ++
         [Op.publishLayerVersion name]), ?_, by simp⟩
    rw [hbase, uploadPub_head_none d app info name path c w {} hs rfl,
        publishLayer_ok _ _ _ _ _ _ rfl]
    simp [prependOps, layerPublishedWorld, oldVersions, freshArn, freshVersion]
  | some c0 =>
    have hc0 : c0 = c := hkey c0 hs
    subst hc0
    refine ⟨w.s3,
      (Op.listLayerVersions name ::
        ((alist.find? name w.layerVersions).getD []).map
          (fun v => Op.getLayerVersion name v.Version)) ++
        ([Op.headObject d.config.Bucket (layerKey app info name)] ++
         [Op.publishLayerVersion name]), ?_, by simp⟩
    rw [hbase, uploadPub_head_some d app info name path c0 c0 w {} hs rfl,
        publishLayer_ok _ _ _ _ _ _ rfl]
    simp [prependOps, layerPublishedWorld, oldVersions, freshArn, freshVersion]

/-! ## Frame lemmas: CreateLayer touches only the bucket and the layer
versions, its trace contains only layer operations, and without faults it
cannot fail. -/

theorem publishLayer_frame (name path objContent : String) (w : World)
    (fl : LayerFaults) (ops : List Op) (hops : ∀ o ∈ ops, o.isLayerOp = true) :
    (publishLayer name path objContent w fl ops).world.files = w.files
    ∧ (publishLayer name path objContent w fl ops).world.functions = w.functions
    ∧ (publishLayer name path objContent w fl ops).world.versionCounter = w.versionCounter
    ∧ ∀ o ∈ (publishLayer name path objContent w fl ops).ops, o.isLayerOp = true := by
  unfold publishLayer
  split <;>
    refine ⟨rfl, rfl, rfl, ?_⟩ <;>
    · intro o ho
      simp only [List.mem_append, List.mem_singleton] at ho
      rcases ho with ho | ho
      · exact hops o ho
      · simp [ho, Op.isLayerOp]

theorem uploadPub_headOk (d : Deployer) (app : Source) (info : AppInfo)
    (name path content : String) (w : World) (fl : LayerFaults)
    (hok : ((alist.find? (d.config.Bucket, layerKey app info name) w.s3).isSome
        && !fl.headErr) = true) :
    uploadAndPublishLayer d app info name path content w fl =
      publishLayer name path
        ((alist.find? (d.config.Bucket, layerKey app info name) w.s3).getD "") w fl
        [Op.headObject d.config.Bucket (layerKey app info name)] := by
  simp [uploadAndPublishLayer, hok]

theorem uploadPub_uploadFault (d : Deployer) (app : Source) (info : AppInfo)
    (name path content : String) (w : World) (fl : LayerFaults)
    (hok : ((alist.find? (d.config.Bucket, layerKey app info name) w.s3).isSome
        && !fl.headErr) = false)
    (hu : fl.uploadErr = true) :
    uploadAndPublishLayer d app info name path content w fl =
      ⟨"", none, w, [Op.headObject d.config.Bucket (layerKey app info name),
        Op.upload d.config.Bucket (layerKey app info name)]⟩ := by
  simp [uploadAndPublishLayer, hok, hu]

theorem uploadPub_uploads (d : Deployer) (app : Source) (info : AppInfo)
    (name path content : String) (w : World) (fl : LayerFaults)
    (hok : ((alist.find? (d.config.Bucket, layerKey app info name) w.s3).isSome
        && !fl.headErr) = false)
    (hu : fl.uploadErr = false) :
    uploadAndPublishLayer d app info name path content w fl =
      publishLayer name path content
        { w with s3 := alist.insert (d.config.Bucket, layerKey app info name) content w.s3 }
        fl
        [Op.headObject d.config.Bucket (layerKey app info name),
         Op.upload d.config.Bucket (layerKey app info name)] := by
  simp [uploadAndPublishLayer, hok, hu]

theorem uploadPub_frame (d : Deployer) (app : Source) (info : AppInfo)
    (name path content : String) (w : World) (fl : LayerFaults) :
    (uploadAndPublishLayer d app info name path content w fl).world.files = w.files
    ∧ (uploadAndPublishLayer d app info name path content w fl).world.functions = w.functions
    ∧ (uploadAndPublishLayer d app info name path content w fl).world.versionCounter
        = w.versionCounter
    ∧ ∀ o ∈ (uploadAndPublishLayer d app info name path content w fl).ops,
        o.isLayerOp = true := by
  have hhead : ∀ o ∈ [Op.headObject d.config.Bucket (layerKey app info name)],
      o.isLayerOp = true := by
    intro o ho
    simp only [List.mem_singleton] at ho
    simp [ho, Op.isLayerOp]
  have hheadUp : ∀ o ∈ [Op.headObject d.config.Bucket (layerKey app info name),
      Op.upload d.config.Bucket (layerKey app info name)], o.isLayerOp = true := by
    intro o ho
    simp only [List.mem_cons, List.not_mem_nil, or_false] at ho
    rcases ho with ho | ho <;> simp [ho, Op.isLayerOp]
  by_cases hok : ((alist.find? (d.config.Bucket, layerKey app info name) w.s3).isSome
      && !fl.headErr) = true
  · rw [uploadPub_headOk d app info name path content w fl hok]
    exact publishLayer_frame _ _ _ _ _ _ hhead
  · rw [Bool.not_eq_true] at hok
    by_cases hu : fl.uploadErr = true
    · rw [uploadPub_uploadFault d app info name path content w fl hok hu]
      exact ⟨rfl, rfl, rfl, hheadUp⟩
    · rw [Bool.not_eq_true] at hu
      rw [uploadPub_uploads d app info name path content w fl hok hu]
      have h := publishLayer_frame name path content
        { w with s3 := alist.insert (d.config.Bucket, layerKey app info name) content w.s3 }
        fl _ hheadUp
      exact ⟨h.1, h.2.1, h.2.2.1, h.2.2.2⟩

theorem createLayer_frame (d : Deployer) (app : Source) (info : AppInfo)
    (name path : String) (w : World) (fl : LayerFaults) :
    (CreateLayer d app info name path w fl).world.files = w.files
    ∧ (CreateLayer d app info name path w fl).world.functions = w.functions
    ∧ (CreateLayer d app info name path w fl).world.versionCounter = w.versionCounter
    ∧ ∀ o ∈ (CreateLayer d app info name path w fl).ops, o.isLayerOp = true := by
  cases hh : HashFile w path with
  | none => simp [CreateLayer, hh]
  | some content =>
    have hub := uploadPub_frame d app info name path content w fl
    by_cases hl : fl.listErr = true
    · rw [createLayer_listErr d app info name path content w fl hh hl]
      refine ⟨hub.1, hub.2.1, hub.2.2.1, ?_⟩
      intro o ho
      simp only [prependOps, List.mem_append, List.mem_cons, List.not_mem_nil, or_false] at ho
      rcases ho with ho | ho
      · simp [ho, Op.isLayerOp]
      · exact hub.2.2.2 o ho
    · rw [Bool.not_eq_true] at hl
      rcases hsc : scanLayerVersions fl name (lambdaCodeSha256OfContent content)
        ((alist.find? name w.layerVersions).getD []) with ⟨outcome, sOps⟩
      have hgets : ∀ o ∈ sOps, ∃ n, o = Op.getLayerVersion name n := by
        intro o ho
        have := scan_ops_are_gets fl name (lambdaCodeSha256OfContent content)
          ((alist.find? name w.layerVersions).getD [])
        rw [hsc] at this
        exact this o ho
      have hsopsLayer : ∀ o ∈ sOps, o.isLayerOp = true := by
        intro o ho
        obtain ⟨n, rfl⟩ := hgets o ho
        simp [Op.isLayerOp]
      cases outcome with
      | found arn =>
        rw [createLayer_scan_found d app info name path content arn w fl sOps hh hl hsc]
        refine ⟨rfl, rfl, rfl, ?_⟩
        intro o ho
        simp only [List.mem_cons] at ho
        rcases ho with ho | ho
        · simp [ho, Op.isLayerOp]
        · exact hsopsLayer o ho
      | fail e =>
        rw [createLayer_scan_fail d app info name path content e w fl sOps hh hl hsc]
        refine ⟨rfl, rfl, rfl, ?_⟩
        intro o ho
        simp only [List.mem_cons] at ho
        rcases ho with ho | ho
        · simp [ho, Op.isLayerOp]
        · exact hsopsLayer o ho
      | noMatch =>
        rw [createLayer_scan_noMatch d app info name path content w fl sOps hh hl hsc]
        refine ⟨hub.1, hub.2.1, hub.2.2.1, ?_⟩
        intro o ho
        simp only [prependOps, List.mem_append, List.mem_cons] at ho
        rcases ho with (ho | ho) | ho
        · simp [ho, Op.isLayerOp]
        · exact hsopsLayer o ho
        · exact hub.2.2.2 o ho

theorem uploadPub_ok_err (d : Deployer) (app : Source) (info : AppInfo)
    (name path content : String) (w : World) (fl : LayerFaults)
    (hu : fl.uploadErr = false) (hpb : fl.publishErr = false) :
    (uploadAndPublishLayer d app info name path content w fl).err = none := by
  by_cases hok : ((alist.find? (d.config.Bucket, layerKey app info name) w.s3).isSome
      && !fl.headErr) = true
  · rw [uploadPub_headOk d app info name path content w fl hok,
        publishLayer_ok _ _ _ _ _ _ hpb]
  · rw [Bool.not_eq_true] at hok
    rw [uploadPub_uploads d app info name path content w fl hok hu,
        publishLayer_ok _ _ _ _ _ _ hpb]

theorem createLayer_ok_err (d : Deployer) (app : Source) (info : AppInfo)
    (name path content : String) (w : World) (fl : LayerFaults)
    (hf : HashFile w path = some content)
    (hg : ∀ n, fl.getErr n = false) (hu : fl.uploadErr = false)
    (hpb : fl.publishErr = false) :
    (CreateLayer d app info name path w fl).err = none := by
  by_cases hl : fl.listErr = true
  · rw [createLayer_listErr d app info name path content w fl hf hl]
    simpa [prependOps] using uploadPub_ok_err d app info name path content w fl hu hpb
  · rw [Bool.not_eq_true] at hl
    rcases hsc : scanLayerVersions fl name (lambdaCodeSha256OfContent content)
      ((alist.find? name w.layerVersions).getD []) with ⟨outcome, sOps⟩
    cases outcome with
    | found arn =>
      rw [createLayer_scan_found d app info name path content arn w fl sOps hf hl hsc]
    | fail e =>
      exfalso
      have := scan_fail_has_fault fl name (lambdaCodeSha256OfContent content)
        ((alist.find? name w.layerVersions).getD []) e (by rw [hsc])
      obtain ⟨v, -, hv⟩ := this
      rw [hg v.Version] at hv
      exact Bool.false_ne_true hv
    | noMatch =>
      rw [createLayer_scan_noMatch d app info name path content w fl sOps hf hl hsc]
      simpa [prependOps] using uploadPub_ok_err d app info name path content w fl hu hpb

/-- Membership helper: a non-layer operation never occurs in a trace made of
layer operations. -/
theorem notMem_of_layerOps (ops : List Op) (h : ∀ o ∈ ops, o.isLayerOp = true)
    (o : Op) (ho : o.isLayerOp = false) : o ∉ ops := by
  intro hm
  rw [h o hm] at ho
  exact absurd ho (by simp)

/-- The layer-diff condition as an existential. -/
theorem any_newLayers_iff (L : List String) (p q : String) :
    L.any (fun x => !(x == p || x == q)) = true ↔ ∃ x ∈ L, x ≠ p ∧ x ≠ q := by
  simp [List.any_eq_true, not_or]

/-! ## Claim theorems -/

/-- Claim C1 (code_bug evidence): with no matching layer version, no object
at the derived key, and a failing upload, CreateLayer returns an empty
reference together with a nil error — the upload error is swallowed (source:
return "", nil) instead of being surfaced — and publishes no layer version
(the trace ends at the upload; the world is unchanged). -/
theorem createLayer_swallows_upload_error :
    CreateLayer dep src binfo "npre" "pre.zip" wNoLayers { uploadErr := true } =
      ⟨"", none, wNoLayers,
       [Op.listLayerVersions "npre", Op.headObject "bkt" "myapp-b1-npre.zip",
        Op.upload "bkt" "myapp-b1-npre.zip"]⟩ := by
  decide

/-- Claim C4 (code_bug evidence): ConfigGet on a function whose configuration
has a nil Environment pointer hits a nil-pointer dereference (a crash), not
the ErrNoSuchVariable condition; with an environment mapping present the
behaviour is as claimed: a missing variable yields ErrNoSuchVariable and a
present variable's value is returned. -/
theorem configGet_nil_env_crashes :
    ConfigGet src "X" wNilEnv {} = (.nilDeref, [Op.getFunction "myapp"])
    ∧ ConfigGet src "X" wEmptyEnv {} = (.errNoSuchVariable, [Op.getFunction "myapp"])
    ∧ ConfigGet src "X" wEnvX {} = (.ok "7", [Op.getFunction "myapp"]) := by
  decide

/-- Claim C2 (counterexample): on the update path with no layers attached,
the attached layer set (empty) differs from the just-published pair, yet
UpdateFunctionConfiguration is never invoked — the code only updates the
configuration when some attached layer lies outside the pair.
UpdateFunctionCode and PublishVersion do run, both layers are published, and
the function's layer list stays empty after the call. -/
theorem createFunction_skips_config_on_strict_subset :
    Op.updateFunctionConfiguration "myapp" ∉ (CreateFunction dep src binfo wUpdate {}).ops
    ∧ Op.updateFunctionCode "myapp" ∈ (CreateFunction dep src binfo wUpdate {}).ops
    ∧ Op.publishVersion "myapp" ∈ (CreateFunction dep src binfo wUpdate {}).ops
    ∧ Op.publishLayerVersion "myapp-pre" ∈ (CreateFunction dep src binfo wUpdate {}).ops
    ∧ Op.publishLayerVersion "myapp-lib" ∈ (CreateFunction dep src binfo wUpdate {}).ops
    ∧ (CreateFunction dep src binfo wUpdate {}).err = none
    ∧ (alist.find? "myapp" wUpdate.functions).map FunctionConfig.Layers = some []
    ∧ (alist.find? "myapp" (CreateFunction dep src binfo wUpdate {}).world.functions).map
        FunctionConfig.Layers = some []
    ∧ ([] : List String) ≠ ["arn:layer:myapp-pre:1", "arn:layer:myapp-lib:1"] := by
  decide

/-- Claim C3 (counterexample): in a successful reconciliation the
application-package upload is the very first remote call, and both layer
publishes happen strictly after it (the package upload occurs exactly once,
at the head of the trace) — not after the layer publishes as claimed. -/
theorem createFunction_uploads_package_before_layers :
    (CreateFunction dep src binfo wUpdate {}).ops.head? =
      some (Op.upload "bkt" "myapp-b1-app.zip")
    ∧ Op.publishLayerVersion "myapp-pre" ∈ (CreateFunction dep src binfo wUpdate {}).ops.tail
    ∧ Op.publishLayerVersion "myapp-lib" ∈ (CreateFunction dep src binfo wUpdate {}).ops.tail
    ∧ Op.upload "bkt" "myapp-b1-app.zip" ∉ (CreateFunction dep src binfo wUpdate {}).ops.tail
    ∧ (CreateFunction dep src binfo wUpdate {}).err = none := by
  decide

/-- Claim C10: failure handling in CreateLayer's reuse scan is asymmetric.
First part: when ListLayerVersions fails, the error is swallowed — the call
skips the whole scan (no GetLayerVersion request), proceeds to the storage
path (HeadObject is issued) and publishes, returning a nil error.  Second
part: when the listing succeeds and GetLayerVersion fails on some version
before any digest match, the call aborts with that error, leaving the world
unchanged with no upload and no publish attempted. -/
theorem createLayer_asymmetric_scan_errors :
    (∀ (d : Deployer) (app : Source) (info : AppInfo) (name path c : String) (w : World),
      HashFile w path = some c →
      (∀ nm v, Op.getLayerVersion nm v ∉
        (CreateLayer d app info name path w { listErr := true }).ops)
      ∧ Op.headObject d.config.Bucket (layerKey app info name) ∈
          (CreateLayer d app info name path w { listErr := true }).ops
      ∧ (CreateLayer d app info name path w { listErr := true }).err = none
      ∧ Op.publishLayerVersion name ∈
          (CreateLayer d app info name path w { listErr := true }).ops)
    ∧
    (∀ (d : Deployer) (app : Source) (info : AppInfo) (name path c : String) (w : World)
      (fl : LayerFaults) (pre : List LayerVersion) (v : LayerVersion)
      (rest : List LayerVersion),
      HashFile w path = some c →
      fl.listErr = false →
      oldVersions w name = pre ++ v :: rest →
      (∀ u ∈ pre, fl.getErr u.Version = false ∧
        u.CodeSha256 ≠ lambdaCodeSha256OfContent c) →
      fl.getErr v.Version = true →
      (CreateLayer d app info name path w fl).err.isSome = true
      ∧ (CreateLayer d app info name path w fl).world = w
      ∧ (∀ b2 k2, Op.upload b2 k2 ∉ (CreateLayer d app info name path w fl).ops)
      ∧ (∀ nm, Op.publishLayerVersion nm ∉ (CreateLayer d app info name path w fl).ops)) := by
  constructor
  · intro d app info name path c w hf
    rw [createLayer_listErr d app info name path c w _ hf rfl]
    cases hs : alist.find? (d.config.Bucket, layerKey app info name) w.s3 with
    | none =>
      rw [uploadPub_head_none d app info name path c w _ hs rfl,
          publishLayer_ok _ _ _ _ _ _ rfl]
      simp [prependOps]
    | some c0 =>
      rw [uploadPub_head_some d app info name path c c0 w _ hs rfl,
          publishLayer_ok _ _ _ _ _ _ rfl]
      simp [prependOps]
  · intro d app info name path c w fl pre v rest hf hl hov hpre hv
    unfold oldVersions at hov
    have hscan : scanLayerVersions fl name (lambdaCodeSha256OfContent c)
        ((alist.find? name w.layerVersions).getD []) =
        (.fail "GetLayerVersion: transport error",
         (pre.map fun u => Op.getLayerVersion name u.Version) ++
           [Op.getLayerVersion name v.Version]) := by
      rw [hov, scan_append_noMatch fl name _ pre (v :: rest) hpre,
          scan_cons_fail fl name _ v rest hv]
    rw [createLayer_scan_fail d app info name path c _ w fl _ hf hl hscan]
    simp

/-- Witness for the scan-error asymmetry theorem at concrete inputs: a
swallowed listing error still ends in a nil error, and a faulted version
fetch aborts the call. -/
theorem createLayer_asymmetric_scan_errors_witness :
    HashFile wNoLayers "pre.zip" = some "P"
    ∧ (CreateLayer dep src binfo "npre" "pre.zip" wNoLayers { listErr := true }).err = none
    ∧ (CreateLayer dep src binfo "npre" "pre.zip" wVersioned
        { getErr := fun n => n == 1 }).err.isSome = true := by
  have h := createLayer_asymmetric_scan_errors
  refine ⟨by decide, (h.1 dep src binfo "npre" "pre.zip" "P" wNoLayers (by decide)).2.2.1, ?_⟩
  exact (h.2 dep src binfo "npre" "pre.zip" "P" wVersioned { getErr := fun n => n == 1 }
    [] verQ [] (by decide) rfl (by decide) (by decide) rfl).1

/-- Claim C7: two CreateLayer calls with the same layer name and
byte-identical file content (under possibly different applications and build
identifiers).  Provided no existing version of the layer already carries the
content's digest (equivalently: the first call publishes) and the derived
storage key, when already occupied, holds the same bytes as the local file
(guaranteed in this system by build-identifier uniqueness), the first call
publishes a version and the second call succeeds with the first call's
reference, changes nothing, and issues no upload and no publish — its trace
is exactly the listing plus one GetLayerVersion per version. -/
theorem createLayer_content_reuse
    (d : Deployer) (app app2 : Source) (info info2 : AppInfo)
    (name path path2 c : String) (w : World)
    (hf : HashFile w path = some c)
    (hf2 : HashFile w path2 = some c)
    (hnm : ∀ v ∈ oldVersions w name, v.CodeSha256 ≠ lambdaCodeSha256OfContent c)
    (hkey : ∀ c0, alist.find? (d.config.Bucket, layerKey app info name) w.s3 = some c0 →
      c0 = c) :
    Op.publishLayerVersion name ∈ (CreateLayer d app info name path w {}).ops
    ∧ (CreateLayer d app info name path w {}).err = none
    ∧ CreateLayer d app2 info2 name path2 (CreateLayer d app info name path w {}).world {} =
        ⟨(CreateLayer d app info name path w {}).arn, none,
         (CreateLayer d app info name path w {}).world,
         Op.listLayerVersions name ::
           (oldVersions (CreateLayer d app info name path w {}).world name).map
             (fun v => Op.getLayerVersion name v.Version)⟩
    ∧ (∀ b2 k2, Op.upload b2 k2 ∉
        (CreateLayer d app2 info2 name path2 (CreateLayer d app info name path w {}).world {}).ops)
    ∧ (∀ nm, Op.publishLayerVersion nm ∉
        (CreateLayer d app2 info2 name path2 (CreateLayer d app info name path w {}).world {}).ops) := by
  obtain ⟨s3post, ops1, he1, hpub1⟩ := createLayer_fresh_eq d app info name path c w hf hnm hkey
  rw [he1]
  have hf2b : HashFile { layerPublishedWorld w name c with s3 := s3post } path2 = some c := by
    simpa [HashFile, layerPublishedWorld] using hf2
  have hov : oldVersions { layerPublishedWorld w name c with s3 := s3post } name =
      oldVersions w name ++ [freshVersion w name c] := by
    simp [oldVersions, layerPublishedWorld, alist.find?_insert_self]
  have hscan : scanLayerVersions ({} : LayerFaults) name (lambdaCodeSha256OfContent c)
      ((alist.find? name ({ layerPublishedWorld w name c with s3 := s3post } : World).layerVersions).getD []) =
      (.found (freshArn w name),
       ((oldVersions w name).map fun u => Op.getLayerVersion name u.Version) ++
         [Op.getLayerVersion name ((oldVersions w name).length + 1)]) := by
    have : ((alist.find? name ({ layerPublishedWorld w name c with s3 := s3post } : World).layerVersions).getD []) =
        oldVersions w name ++ [freshVersion w name c] := hov
    rw [this, scan_append_noMatch _ name _ _ _ (fun u hu => ⟨rfl, hnm u hu⟩),
        scan_cons_found ({} : LayerFaults) name (lambdaCodeSha256OfContent c)
          (freshVersion w name c) [] rfl rfl]
    simp [freshVersion]
  have he2 := createLayer_scan_found d app2 info2 name path2 c (freshArn w name)
    { layerPublishedWorld w name c with s3 := s3post } {} _ hf2b rfl hscan
  rw [he2]
  refine ⟨by simp [hpub1], rfl, ?_, by simp, by simp⟩
  simp [hov, freshVersion]

/-- Witness for the content-reuse theorem at a concrete input: publishing a
fresh layer from pre.zip and repeating the call with identical content. -/
theorem createLayer_content_reuse_witness :
    HashFile wNoLayers "pre.zip" = some "P"
    ∧ (∀ v ∈ oldVersions wNoLayers "npre", v.CodeSha256 ≠ lambdaCodeSha256OfContent "P")
    ∧ Op.publishLayerVersion "npre" ∈ (CreateLayer dep src binfo "npre" "pre.zip" wNoLayers {}).ops
    ∧ (CreateLayer dep src binfo "npre" "pre.zip" wNoLayers {}).err = none
    ∧ (CreateLayer dep src binfo "npre" "pre.zip"
        (CreateLayer dep src binfo "npre" "pre.zip" wNoLayers {}).world {}).arn =
      (CreateLayer dep src binfo "npre" "pre.zip" wNoLayers {}).arn := by
  have h := createLayer_content_reuse dep src src binfo binfo "npre" "pre.zip" "pre.zip" "P"
    wNoLayers (by decide) (by decide) (by decide)
    (by intro c0 hc0; simp [wNoLayers, alist.find?] at hc0)
  refine ⟨by decide, by decide, h.1, h.2.1, ?_⟩
  rw [h.2.2.1]

theorem prependOps_cons_ops (o : Op) (ops0 : List Op) (r : CallResult) :
    ∃ rest, (prependOps (o :: ops0) r).ops = o :: rest :=
  ⟨ops0 ++ r.ops, by simp [prependOps]⟩

/-- Claim C3 (amended): the application package is uploaded to blob storage
first — before the layer publishes — and unconditionally: whatever the
bucket already holds and whatever faults are injected, as soon as the local
package file is readable the very first remote call of CreateFunction is the
package upload at the derived key (no HeadObject dedup check precedes it). -/
theorem createFunction_uploads_package_first
    (d : Deployer) (app : Source) (info : AppInfo) (w : World) (ff : FnFaults) (c : String)
    (ha : HashFile w info.AppZip = some c) :
    ∃ rest, (CreateFunction d app info w ff).ops =
      Op.upload d.config.Bucket (appKey app info) :: rest := by
  simp only [CreateFunction, ha]
  split
  · exact ⟨_, rfl⟩
  · split
    · exact ⟨_, rfl⟩
    · split
      · exact ⟨_, rfl⟩
      · split <;> exact prependOps_cons_ops _ _ _

/-- Witness for the package-upload-first theorem at a concrete input. -/
theorem createFunction_uploads_package_first_witness :
    HashFile wUpdate "app.zip" = some "A"
    ∧ ∃ rest, (CreateFunction dep src binfo wUpdate {}).ops =
        Op.upload "bkt" "myapp-b1-app.zip" :: rest :=
  ⟨by decide, createFunction_uploads_package_first dep src binfo wUpdate {} "A" (by decide)⟩

/-- Claim C2 (amended): on the update path, UpdateFunctionConfiguration is
invoked if and only if some currently attached layer reference differs from
both just-published layer references; when the attached set is a subset of
the published pair — including the empty set — the configuration update is
skipped; and UpdateFunctionCode and PublishVersion are always invoked. -/
theorem createFunction_update_config_iff
    (d : Deployer) (app : Source) (info : AppInfo) (w : World) (cfg : FunctionConfig)
    (a p l : String)
    (ha : HashFile w info.AppZip = some a)
    (hp : HashFile w info.PreZip = some p)
    (hl : HashFile w info.LibZip = some l)
    (hcfg : alist.find? app.App w.functions = some cfg)
    (rPre rLib : CallResult)
    (hre : rPre = CreatePreLayer d app info info.PreZip
      { w with s3 := alist.insert (d.config.Bucket, appKey app info) a w.s3 } {})
    (hle : rLib = CreateLibraryLayer d app info info.LibZip rPre.world {}) :
    ((Op.updateFunctionConfiguration app.App ∈ (CreateFunction d app info w {}).ops)
      ↔ ∃ x ∈ cfg.Layers, x ≠ rPre.arn ∧ x ≠ rLib.arn)
    ∧ Op.updateFunctionCode app.App ∈ (CreateFunction d app info w {}).ops
    ∧ Op.publishVersion app.App ∈ (CreateFunction d app info w {}).ops
    ∧ (CreateFunction d app info w {}).err = none := by
  subst hre
  subst hle
  have hPreFile : HashFile
      { w with s3 := alist.insert (d.config.Bucket, appKey app info) a w.s3 }
      info.PreZip = some p := by
    simpa [HashFile] using hp
  have hPreErr : (CreateLayer d app info (app.App ++ "-pre") info.PreZip
      { w with s3 := alist.insert (d.config.Bucket, appKey app info) a w.s3 } {}).err
      = none :=
    createLayer_ok_err d app info (app.App ++ "-pre") info.PreZip p _ {} hPreFile
      (fun _ => rfl) rfl rfl
  have hPreFrame := createLayer_frame d app info (app.App ++ "-pre") info.PreZip
    { w with s3 := alist.insert (d.config.Bucket, appKey app info) a w.s3 } {}
  have hLibFile : HashFile (CreateLayer d app info (app.App ++ "-pre") info.PreZip
      { w with s3 := alist.insert (d.config.Bucket, appKey app info) a w.s3 } {}).world
      info.LibZip = some l := by
    unfold HashFile
    rw [hPreFrame.1]
    simpa [HashFile] using hl
  have hLibErr : (CreateLayer d app info (app.App ++ "-lib") info.LibZip
      (CreateLayer d app info (app.App ++ "-pre") info.PreZip
        { w with s3 := alist.insert (d.config.Bucket, appKey app info) a w.s3 } {}).world
      {}).err = none :=
    createLayer_ok_err d app info (app.App ++ "-lib") info.LibZip l _ {} hLibFile
      (fun _ => rfl) rfl rfl
  have hLibFrame := createLayer_frame d app info (app.App ++ "-lib") info.LibZip
    (CreateLayer d app info (app.App ++ "-pre") info.PreZip
      { w with s3 := alist.insert (d.config.Bucket, appKey app info) a w.s3 } {}).world {}
  have hfun : alist.find? app.App (CreateLayer d app info (app.App ++ "-lib") info.LibZip
      (CreateLayer d app info (app.App ++ "-pre") info.PreZip
        { w with s3 := alist.insert (d.config.Bucket, appKey app info) a w.s3 } {}).world
      {}).world.functions = some cfg := by
    rw [hLibFrame.2.1, hPreFrame.2.1]
    simpa using hcfg
  simp only [CreateFunction, ha, CreatePreLayer, CreateLibraryLayer]
  rw [hPreErr]
  simp only []
  rw [hLibErr]
  simp only []
  rw [hfun]
  simp only [Bool.false_eq_true, if_false, updatePath]
  have hnotpre := notMem_of_layerOps _ hPreFrame.2.2.2
    (Op.updateFunctionConfiguration app.App) (by simp [Op.isLayerOp])
  have hnotlib := notMem_of_layerOps _ hLibFrame.2.2.2
    (Op.updateFunctionConfiguration app.App) (by simp [Op.isLayerOp])
  by_cases hNL : cfg.Layers.any
      (fun x => !(x == (CreateLayer d app info (app.App ++ "-pre") info.PreZip
        { w with s3 := alist.insert (d.config.Bucket, appKey app info) a w.s3 } {}).arn
        || x == (CreateLayer d app info (app.App ++ "-lib") info.LibZip
          (CreateLayer d app info (app.App ++ "-pre") info.PreZip
            { w with s3 := alist.insert (d.config.Bucket, appKey app info) a w.s3 } {}).world
          {}).arn)) = true
  · rw [hNL, if_pos rfl]
    simp only [codeAndPublish, Bool.false_eq_true, if_false, prependOps]
    refine ⟨iff_of_true (by simp) ((any_newLayers_iff _ _ _).mp hNL), by simp, by simp, by simp⟩
  · rw [Bool.not_eq_true] at hNL
    rw [hNL]
    simp only [Bool.false_eq_true, if_false, codeAndPublish, prependOps]
    refine ⟨iff_of_false ?_ ?_, by simp, by simp, by simp⟩
    · intro hm
      rcases List.mem_cons.mp hm with h1 | h1
      · simp at h1
      rcases List.mem_append.mp h1 with h2 | h2
      · rcases List.mem_append.mp h2 with h3 | h3
        · rcases List.mem_append.mp h3 with h4 | h4
          · exact hnotpre h4
          · exact hnotlib h4
        · simp at h3
      · simp at h2
    · intro hex
      have h5 := (any_newLayers_iff _ _ _).mpr hex
      rw [hNL] at h5
      exact absurd h5 (by simp)

/-- Witness for the layer-diff gating theorem at a concrete input. -/
theorem createFunction_update_config_iff_witness :
    HashFile wUpdate "app.zip" = some "A"
    ∧ Op.updateFunctionCode "myapp" ∈ (CreateFunction dep src binfo wUpdate {}).ops
    ∧ Op.publishVersion "myapp" ∈ (CreateFunction dep src binfo wUpdate {}).ops
    ∧ (CreateFunction dep src binfo wUpdate {}).err = none := by
  have h := createFunction_update_config_iff dep src binfo wUpdate cfgNilEnv "A" "P" "L"
    (by decide) (by decide) (by decide) (by decide) _ _ rfl rfl
  exact ⟨by decide, h.2.1, h.2.2.1, h.2.2.2⟩

/-- Claim C5: a successful ConfigSet writes back a configuration whose
environment is the fetched mapping (empty when the Environment pointer is
nil) with the variable inserted or overwritten, copies handler, role,
runtime, timeout, memory size and the layer list verbatim, and publishes a
new version.  In particular, setting A=1 and then B=2 leaves a mapping
containing both with every other field unchanged. -/
theorem configSet_merge_preserves :
    (∀ (app : Source) (cv : ConfigVar) (w : World) (cur : FunctionConfig),
      alist.find? app.App w.functions = some cur →
      (ConfigSet app cv w {}).err = none
      ∧ alist.find? app.App (ConfigSet app cv w {}).world.functions =
          some ⟨cur.Handler, cur.Role, cur.Runtime, cur.Timeout, cur.MemorySize, cur.Layers,
                some (alist.insert cv.Name cv.Value (cur.Environment.getD []))⟩
      ∧ (∀ k, alist.find? k (alist.insert cv.Name cv.Value (cur.Environment.getD [])) =
          if k = cv.Name then some cv.Value else alist.find? k (cur.Environment.getD []))
      ∧ Op.publishVersion app.App ∈ (ConfigSet app cv w {}).ops
      ∧ (ConfigSet app cv w {}).world.versionCounter = w.versionCounter + 1)
    ∧
    (∀ (app : Source) (w : World) (cur : FunctionConfig),
      alist.find? app.App w.functions = some cur →
      ∃ cur2, alist.find? app.App
          (ConfigSet app ⟨"B", "2"⟩ (ConfigSet app ⟨"A", "1"⟩ w {}).world {}).world.functions
            = some cur2
        ∧ (∃ env2, cur2.Environment = some env2
             ∧ alist.find? "A" env2 = some "1" ∧ alist.find? "B" env2 = some "2")
        ∧ cur2.Handler = cur.Handler ∧ cur2.Role = cur.Role ∧ cur2.Runtime = cur.Runtime
        ∧ cur2.Timeout = cur.Timeout ∧ cur2.MemorySize = cur.MemorySize
        ∧ cur2.Layers = cur.Layers) := by
  have main : ∀ (app : Source) (cv : ConfigVar) (w : World) (cur : FunctionConfig),
      alist.find? app.App w.functions = some cur →
      (ConfigSet app cv w {}).err = none
      ∧ alist.find? app.App (ConfigSet app cv w {}).world.functions =
          some ⟨cur.Handler, cur.Role, cur.Runtime, cur.Timeout, cur.MemorySize, cur.Layers,
                some (alist.insert cv.Name cv.Value (cur.Environment.getD []))⟩
      ∧ (∀ k, alist.find? k (alist.insert cv.Name cv.Value (cur.Environment.getD [])) =
          if k = cv.Name then some cv.Value else alist.find? k (cur.Environment.getD []))
      ∧ Op.publishVersion app.App ∈ (ConfigSet app cv w {}).ops
      ∧ (ConfigSet app cv w {}).world.versionCounter = w.versionCounter + 1 := by
    intro app cv w cur h
    refine ⟨?_, ?_, fun k => alist.find?_insert k cv.Name cv.Value _, ?_, ?_⟩ <;>
      simp [ConfigSet, h, alist.find?_insert_self]
  refine ⟨main, ?_⟩
  intro app w cur h
  obtain ⟨-, hfind1, -, -, -⟩ := main app ⟨"A", "1"⟩ w cur h
  obtain ⟨-, hfind2, -, -, -⟩ :=
    main app ⟨"B", "2"⟩ (ConfigSet app ⟨"A", "1"⟩ w {}).world _ hfind1
  refine ⟨_, hfind2, ⟨_, rfl, ?_, ?_⟩, rfl, rfl, rfl, rfl, rfl, rfl⟩
  · rw [alist.find?_insert]
    simp [alist.find?_insert_self]
  · simp [alist.find?_insert_self]

/-- Witness for the ConfigSet theorem at a concrete input: setting variable
N on the function whose environment already holds X. -/
theorem configSet_merge_preserves_witness :
    alist.find? "myapp" wEnvX.functions =
      some { cfgNilEnv with Environment := some [("X", "7")] }
    ∧ (ConfigSet src ⟨"N", "5"⟩ wEnvX {}).err = none
    ∧ Op.publishVersion "myapp" ∈ (ConfigSet src ⟨"N", "5"⟩ wEnvX {}).ops := by
  have h1 := configSet_merge_preserves.1 src ⟨"N", "5"⟩ wEnvX
    { cfgNilEnv with Environment := some [("X", "7")] } (by decide)
  exact ⟨by decide, h1.1, h1.2.2.2.1⟩

/-! ## Log pagination lemmas -/

theorem getD_lt_of_ne {α : Type} (L : List α) (d : α) :
    ∀ i, L.getD i d ≠ d → i < L.length := by
  induction L with
  | nil => intro i h; simp [List.getD] at h
  | cons a t ih =>
    intro i h
    cases i with
    | zero => simp
    | succ n =>
      have := ih n (by simpa using h)
      simpa using Nat.succ_lt_succ this

theorem drop_eq_getD_cons {α : Type} (L : List α) (d : α) :
    ∀ i, L.getD i d ≠ d → L.drop i = L.getD i d :: L.drop (i + 1) := by
  induction L with
  | nil => intro i h; simp [List.getD] at h
  | cons a t ih =>
    intro i h
    cases i with
    | zero => simp
    | succ n =>
      simp only [List.getD_cons_succ, List.drop_succ_cons]
      exact ih n (by simpa using h)

theorem drop_eq_nil_of_getD_eq {α : Type} (L : List α) (d : α) :
    ∀ i, (∀ x ∈ L, x ≠ d) → L.getD i d = d → L.drop i = [] := by
  induction L with
  | nil => intro i _ _; simp
  | cons a t ih =>
    intro i hwf h
    cases i with
    | zero => exact absurd (by simpa using h) (hwf a (by simp))
    | succ n =>
      simp only [List.drop_succ_cons]
      exact ih n (fun x hx => hwf x (by simp [hx])) (by simpa using h)

theorem getD_mem_of_ne {α : Type} (L : List α) (d : α) :
    ∀ i, L.getD i d ≠ d → L.getD i d ∈ L := by
  induction L with
  | nil => intro i h; simp [List.getD] at h
  | cons a t ih =>
    intro i h
    cases i with
    | zero => simp
    | succ n =>
      simp only [List.getD_cons_succ] at h ⊢
      exact List.mem_cons_of_mem a (ih n h)

/-- Full specification of the stream-advancing loop: it peels streams off in
order, skipping streams with no events, so that the produced batch followed
by what remains equals everything the stream list holds; well-formedness is
preserved, an empty batch means full exhaustion, and the state weight never
grows and strictly shrinks on a non-empty batch. -/
theorem advanceStreams_spec (g : String) :
    ∀ (streams : List LogStream) (tok : Option Nat),
      (∀ p ∈ streams, pagesWF p) →
      (advanceStreams g tok streams).1
          ++ remainingEvents (advanceStreams g tok streams).2.1
        = (streams.map streamEvents).flatten
      ∧ stateWF (advanceStreams g tok streams).2.1
      ∧ (advanceStreams g tok streams).2.1.group = g
      ∧ ((advanceStreams g tok streams).1 = [] →
          (advanceStreams g tok streams).2.1.streams = []
          ∧ (advanceStreams g tok streams).2.1.stream = none)
      ∧ weight (advanceStreams g tok streams).2.1 ≤ streamsWeight streams
      ∧ ((advanceStreams g tok streams).1 ≠ [] →
          weight (advanceStreams g tok streams).2.1 < streamsWeight streams) := by
  intro streams
  induction streams with
  | nil =>
    intro tok hwf
    refine ⟨by simp [advanceStreams, remainingEvents], ?_, rfl, ?_, ?_, ?_⟩
    · exact ⟨by simp [advanceStreams], by simp [advanceStreams]⟩
    · simp [advanceStreams]
    · simp [advanceStreams, weight, streamsWeight, pageIndex]
    · intro h
      simp [advanceStreams] at h
  | cons p rest ih =>
    intro tok hwf
    have hwfp : pagesWF p := hwf p (by simp)
    have hwfr : ∀ q ∈ rest, pagesWF q := fun q hq => hwf q (by simp [hq])
    by_cases hpage : (p.pages.getD 0 []).isEmpty = true
    · have hpempty : p.pages.getD 0 [] = [] := by
        rw [← List.isEmpty_iff]
        exact hpage
      have hdrop : p.pages = [] := by
        cases hp : p.pages with
        | nil => rfl
        | cons q t =>
          exact absurd (by simpa [hp] using hpempty) (hwfp q (by simp [hp]))
      have hfetch : fetchActive p none = none := by
        simp only [fetchActive, pageIndex]
        rw [if_pos hpage]
      have hrest := ih none hwfr
      simp only [advanceStreams, hfetch]
      refine ⟨?_, hrest.2.1, hrest.2.2.1, hrest.2.2.2.1, ?_, ?_⟩
      · have hflat : (List.map streamEvents (p :: rest)).flatten
            = (List.map streamEvents rest).flatten := by
          simp [streamEvents, hdrop]
        rw [hflat]
        exact hrest.1
      · have h5 := hrest.2.2.2.2.1
        simp only [streamsWeight, List.map_cons, List.sum_cons] at h5 ⊢
        omega
      · intro hne
        have h5 := hrest.2.2.2.2.2 hne
        simp only [streamsWeight, List.map_cons, List.sum_cons] at h5 ⊢
        omega
    · have hne : p.pages.getD 0 [] ≠ [] := by
        intro habs
        rw [← List.isEmpty_iff] at habs
        exact hpage habs
      have hfetch : fetchActive p none = some (p.pages.getD 0 [], 1) := by
        simp only [fetchActive, pageIndex]
        rw [if_neg hpage]
      have hlt : 0 < p.pages.length := getD_lt_of_ne p.pages [] 0 hne
      have hsplit : p.pages = p.pages.getD 0 [] :: p.pages.drop 1 := by
        have h0 := drop_eq_getD_cons p.pages [] 0 hne
        simpa using h0
      have hflat : streamEvents p
          = (p.pages.getD 0 []).map (translateEvent p.LogStreamName)
            ++ ((p.pages.drop 1).flatten).map (translateEvent p.LogStreamName) := by
        unfold streamEvents
        conv_lhs => rw [hsplit]
        simp
      simp only [advanceStreams, hfetch]
      refine ⟨?_, ⟨hwfr, ?_⟩, trivial, ?_, ?_, ?_⟩
      · simp only [remainingEvents, pageIndex, List.map_cons, List.flatten_cons, hflat]
        simp
      · intro q hq
        cases hq
        exact hwfp
      · intro habs
        have h0 : p.pages.getD 0 [] = [] := by simpa using habs
        exact absurd h0 hne
      · simp only [weight, streamsWeight, pageIndex, List.map_cons, List.sum_cons]
        omega
      · intro _
        simp only [weight, streamsWeight, pageIndex, List.map_cons, List.sum_cons]
        omega

/-- Full specification of NextLogBatch: the batch followed by the remaining
events equals what was remaining; well-formedness is preserved; an empty
batch occurs exactly at exhaustion (nothing remained and nothing remains);
the weight never grows and strictly shrinks on a non-empty batch. -/
theorem nextLogBatch_spec (s : ViewerState) (hwf : stateWF s) :
    (NextLogBatch s).1 ++ remainingEvents (NextLogBatch s).2.1 = remainingEvents s
    ∧ stateWF (NextLogBatch s).2.1
    ∧ (NextLogBatch s).2.1.group = s.group
    ∧ ((NextLogBatch s).1 = [] →
        (NextLogBatch s).2.1.streams = [] ∧ (NextLogBatch s).2.1.stream = none
        ∧ remainingEvents s = [])
    ∧ weight (NextLogBatch s).2.1 ≤ weight s
    ∧ ((NextLogBatch s).1 ≠ [] → weight (NextLogBatch s).2.1 < weight s) := by
  obtain ⟨g, streams, st, tok⟩ := s
  cases st with
  | none =>
    simp only [NextLogBatch]
    have h := advanceStreams_spec g streams tok hwf.1
    have hrem : remainingEvents ⟨g, streams, none, tok⟩
        = (streams.map streamEvents).flatten := by
      simp [remainingEvents]
    have hwt : weight ⟨g, streams, none, tok⟩ = streamsWeight streams := by
      simp [weight]
    refine ⟨?_, h.2.1, h.2.2.1, ?_, ?_, ?_⟩
    · rw [hrem]
      exact h.1
    · intro hb
      refine ⟨(h.2.2.2.1 hb).1, (h.2.2.2.1 hb).2, ?_⟩
      have h1 := h.1
      rw [hb] at h1
      simp only [List.nil_append] at h1
      have h2 := h.2.2.2.1 hb
      rw [hrem]
      rw [← h1]
      simp [remainingEvents, h2.1, h2.2]
    · rw [hwt]
      exact h.2.2.2.2.1
    · rw [hwt]
      exact h.2.2.2.2.2
  | some p =>
    have hwfp : pagesWF p := hwf.2 p rfl
    by_cases hpage : (p.pages.getD (pageIndex tok) []).isEmpty = true
    · have hpempty : p.pages.getD (pageIndex tok) [] = [] := by
        rw [← List.isEmpty_iff]
        exact hpage
      have hfetch : fetchActive p tok = none := by
        simp only [fetchActive]
        rw [if_pos hpage]
      have hdropnil : p.pages.drop (pageIndex tok) = [] :=
        drop_eq_nil_of_getD_eq p.pages [] (pageIndex tok) hwfp hpempty
      have h := advanceStreams_spec g streams tok hwf.1
      have hrem : remainingEvents ⟨g, streams, some p, tok⟩
          = (streams.map streamEvents).flatten := by
        simp [remainingEvents, hdropnil]
      have hwt : streamsWeight streams ≤ weight ⟨g, streams, some p, tok⟩ := by
        simp [weight]
      simp only [NextLogBatch, hfetch]
      refine ⟨?_, h.2.1, h.2.2.1, ?_, ?_, ?_⟩
      · rw [hrem]
        exact h.1
      · intro hb
        refine ⟨(h.2.2.2.1 hb).1, (h.2.2.2.1 hb).2, ?_⟩
        have h1 := h.1
        rw [hb] at h1
        simp only [List.nil_append] at h1
        have h2 := h.2.2.2.1 hb
        rw [hrem, ← h1]
        simp [remainingEvents, h2.1, h2.2]
      · exact le_trans h.2.2.2.2.1 hwt
      · intro hne
        exact lt_of_lt_of_le (h.2.2.2.2.2 hne) hwt
    · have hne : p.pages.getD (pageIndex tok) [] ≠ [] := by
        intro habs
        rw [← List.isEmpty_iff] at habs
        exact hpage habs
      have hfetch : fetchActive p tok
          = some (p.pages.getD (pageIndex tok) [], pageIndex tok + 1) := by
        simp only [fetchActive]
        rw [if_neg hpage]
      have hlt : pageIndex tok < p.pages.length := getD_lt_of_ne p.pages [] _ hne
      have hsplit := drop_eq_getD_cons p.pages [] (pageIndex tok) hne
      have hrem2 : ((p.pages.drop (pageIndex tok)).flatten).map
            (translateEvent p.LogStreamName)
          = (p.pages.getD (pageIndex tok) []).map (translateEvent p.LogStreamName)
            ++ ((p.pages.drop (pageIndex tok + 1)).flatten).map
              (translateEvent p.LogStreamName) := by
        rw [hsplit]
        simp
      simp only [NextLogBatch, hfetch]
      refine ⟨?_, ⟨hwf.1, ?_⟩, trivial, ?_, ?_, ?_⟩
      · simp only [remainingEvents]
        rw [show pageIndex (some (pageIndex tok + 1)) = pageIndex tok + 1 from rfl]
        conv_rhs => rw [hrem2, List.append_assoc]
      · intro q hq
        cases hq
        exact hwfp
      · intro habs
        have h0 : p.pages.getD (pageIndex tok) [] = [] := by simpa using habs
        exact absurd h0 hne
      · simp only [weight]
        rw [show pageIndex (some (pageIndex tok + 1)) = pageIndex tok + 1 from rfl]
        omega
      · intro _
        simp only [weight]
        rw [show pageIndex (some (pageIndex tok + 1)) = pageIndex tok + 1 from rfl]
        omega

/-- A fully exhausted viewer returns the end-of-sequence signal, keeps its
state unchanged and issues no event request. -/
theorem nextLogBatch_exhausted (s : ViewerState) (h1 : s.streams = [])
    (h2 : s.stream = none) : NextLogBatch s = ([], s, 0) := by
  obtain ⟨g, streams, st, tok⟩ := s
  simp only at h1 h2
  subst h1
  subst h2
  simp [NextLogBatch, advanceStreams]

/-- Draining with enough fuel returns exactly the remaining events, in
non-empty batches, and ends in the exhausted state. -/
theorem drain_spec :
    ∀ (fuel : Nat) (s : ViewerState), weight s < fuel → stateWF s →
      (drainWithFuel fuel s).1.flatten = remainingEvents s
      ∧ (∀ b ∈ (drainWithFuel fuel s).1, b ≠ [])
      ∧ (drainWithFuel fuel s).2.streams = []
      ∧ (drainWithFuel fuel s).2.stream = none := by
  intro fuel
  induction fuel with
  | zero => intro s hw; omega
  | succ n ih =>
    intro s hw hwf
    have h := nextLogBatch_spec s hwf
    by_cases hb : (NextLogBatch s).1 = []
    · have h4 := h.2.2.2.1 hb
      simp only [drainWithFuel, hb, if_true]
      exact ⟨by simpa using h4.2.2.symm, by simp, h4.1, h4.2.1⟩
    · have hwlt : weight (NextLogBatch s).2.1 < n := by
        have := h.2.2.2.2.2 hb
        omega
      have hr := ih (NextLogBatch s).2.1 hwlt h.2.1
      simp only [drainWithFuel, hb, if_false]
      refine ⟨?_, ?_, hr.2.2.1, hr.2.2.2⟩
      · simp only [List.flatten_cons, hr.1]
        exact h.1
      · intro b hmem
        rcases List.mem_cons.mp hmem with hb2 | hb2
        · rw [hb2]; exact hb
        · exact hr.2.1 b hb2

/-- Claim C6: draining a viewer whose partitions are ordered by last-event
time ascending yields exactly the concatenation, in partition order, of
every partition's events: all events of an earlier partition precede any
event of a later partition, a partition with no events contributes nothing
and does not end the sequence, every returned batch is non-empty, and the
end-of-sequence signal is returned exactly when every partition is
exhausted (afterwards the viewer is empty and absorbing). -/
theorem logs_partition_ordering (app : Source) (parts : List LogStream)
    (hord : List.Chain' (fun p q => p.lastEventTime ≤ q.lastEventTime) parts)
    (hwf : ∀ p ∈ parts, pagesWF p) :
    (drainLog (Logs app parts)).1.flatten = (parts.map streamEvents).flatten
    ∧ (∀ b ∈ (drainLog (Logs app parts)).1, b ≠ [])
    ∧ (drainLog (Logs app parts)).2.streams = []
    ∧ (drainLog (Logs app parts)).2.stream = none
    ∧ NextLogBatch (drainLog (Logs app parts)).2
        = ([], (drainLog (Logs app parts)).2, 0) := by
  have hswf : stateWF (Logs app parts) := by
    constructor
    · exact hwf
    · intro p hp
      simp [Logs] at hp
  have hd := drain_spec (weight (Logs app parts) + 1) (Logs app parts) (by omega) hswf
  have hrem : remainingEvents (Logs app parts) = (parts.map streamEvents).flatten := by
    simp [remainingEvents, Logs]
  refine ⟨?_, hd.2.1, hd.2.2.1, hd.2.2.2,
    nextLogBatch_exhausted _ hd.2.2.1 hd.2.2.2⟩
  rw [← hrem]
  exact hd.1

/-- Witness for the partition-ordering theorem at a concrete input: three
event-bearing partitions with last-event times 1 < 2 < 3 and one empty
partition in between. -/
theorem logs_partition_ordering_witness :
    List.Chain' (fun p q => p.lastEventTime ≤ q.lastEventTime) [ls1, ls2, lsE, ls3]
    ∧ (∀ p ∈ [ls1, ls2, lsE, ls3], pagesWF p)
    ∧ (drainLog (Logs src [ls1, ls2, lsE, ls3])).1.flatten
        = ([ls1, ls2, lsE, ls3].map streamEvents).flatten
    ∧ (drainLog (Logs src [ls1, ls2, lsE, ls3])).2.streams = [] := by
  have hc : List.Chain' (fun p q => p.lastEventTime ≤ q.lastEventTime)
      [ls1, ls2, lsE, ls3] := by
    simp [ls1, ls2, lsE, ls3]
  have hw : ∀ p ∈ [ls1, ls2, lsE, ls3], pagesWF p := by
    simp [pagesWF, ls1, ls2, lsE, ls3]
  have h := logs_partition_ordering src [ls1, ls2, lsE, ls3] hc hw
  exact ⟨hc, hw, h.1, h.2.2.1⟩

/-- A successful page fetch never returns an empty page. -/
theorem fetchActive_some_ne (p : LogStream) (tok : Option Nat)
    (page : List RawEvent) (ntok : Nat) (h : fetchActive p tok = some (page, ntok)) :
    page ≠ [] := by
  simp only [fetchActive] at h
  by_cases hp : (p.pages.getD (pageIndex tok) []).isEmpty = true
  · rw [if_pos hp] at h
    exact absurd h (by simp)
  · rw [if_neg hp] at h
    cases h
    intro habs
    exact hp (by rw [habs]; rfl)

/-- An empty result from the stream-advancing loop leaves no streams and no
active stream. -/
theorem advanceStreams_empty (g : String) :
    ∀ (streams : List LogStream) (tok : Option Nat),
      (advanceStreams g tok streams).1 = [] →
      (advanceStreams g tok streams).2.1.streams = []
      ∧ (advanceStreams g tok streams).2.1.stream = none := by
  intro streams
  induction streams with
  | nil =>
    intro tok h
    simp [advanceStreams]
  | cons p rest ih =>
    intro tok h
    cases hf : fetchActive p none with
    | some pr =>
      obtain ⟨page, ntok⟩ := pr
      have hne := fetchActive_some_ne p none page ntok hf
      simp only [advanceStreams, hf] at h
      exact absurd h (by simp [hne])
    | none =>
      simp only [advanceStreams, hf] at h ⊢
      exact ih none h

/-- Claim C9: exhaustion is absorbing.  Whenever NextLogBatch returns the
end-of-sequence signal (an empty batch), the viewer holds no active
partition and no remaining partitions, and calling NextLogBatch again
returns the end-of-sequence signal with the state unchanged and zero event
requests issued — so every subsequent call does the same. -/
theorem nextLogBatch_exhaustion_absorbing (s : ViewerState)
    (h : (NextLogBatch s).1 = []) :
    (NextLogBatch s).2.1.stream = none
    ∧ (NextLogBatch s).2.1.streams = []
    ∧ NextLogBatch (NextLogBatch s).2.1 = ([], (NextLogBatch s).2.1, 0) := by
  obtain ⟨g, streams, st, tok⟩ := s
  have key : (NextLogBatch (⟨g, streams, st, tok⟩ : ViewerState)).2.1.streams = []
      ∧ (NextLogBatch (⟨g, streams, st, tok⟩ : ViewerState)).2.1.stream = none := by
    cases st with
    | none =>
      simp only [NextLogBatch] at h ⊢
      exact advanceStreams_empty g streams tok h
    | some p =>
      cases hf : fetchActive p tok with
      | some pr =>
        obtain ⟨page, ntok⟩ := pr
        have hne := fetchActive_some_ne p tok page ntok hf
        simp only [NextLogBatch, hf] at h
        exact absurd h (by simp [hne])
      | none =>
        simp only [NextLogBatch, hf] at h ⊢
        exact advanceStreams_empty g streams tok h
  exact ⟨key.2, key.1, nextLogBatch_exhausted _ key.1 key.2⟩

/-- Witness for the absorbing-exhaustion theorem at a concrete input. -/
theorem nextLogBatch_exhaustion_absorbing_witness :
    (NextLogBatch (⟨"g", [], none, none⟩ : ViewerState)).1 = []
    ∧ ((NextLogBatch (⟨"g", [], none, none⟩ : ViewerState)).2.1.stream = none
      ∧ (NextLogBatch (⟨"g", [], none, none⟩ : ViewerState)).2.1.streams = []
      ∧ NextLogBatch (NextLogBatch (⟨"g", [], none, none⟩ : ViewerState)).2.1
          = ([], (NextLogBatch (⟨"g", [], none, none⟩ : ViewerState)).2.1, 0)) :=
  ⟨rfl, nextLogBatch_exhaustion_absorbing ⟨"g", [], none, none⟩ rfl⟩

/-- A non-empty batch from the stream-advancing loop is the translation of a
page of the stream that ends up active. -/
theorem advanceStreams_translates (g : String) :
    ∀ (streams : List LogStream) (tok : Option Nat),
      (advanceStreams g tok streams).1 ≠ [] →
      ∃ p page, (advanceStreams g tok streams).2.1.stream = some p
        ∧ page ∈ p.pages
        ∧ (advanceStreams g tok streams).1 = page.map (translateEvent p.LogStreamName) := by
  intro streams
  induction streams with
  | nil =>
    intro tok h
    simp [advanceStreams] at h
  | cons p rest ih =>
    intro tok h
    by_cases hpage : (p.pages.getD 0 []).isEmpty = true
    · have hfetch : fetchActive p none = none := by
        simp only [fetchActive, pageIndex]
        rw [if_pos hpage]
      simp only [advanceStreams, hfetch] at h ⊢
      exact ih none h
    · have hne : p.pages.getD 0 [] ≠ [] := by
        intro habs
        rw [← List.isEmpty_iff] at habs
        exact hpage habs
      have hfetch : fetchActive p none = some (p.pages.getD 0 [], 1) := by
        simp only [fetchActive, pageIndex]
        rw [if_neg hpage]
      refine ⟨p, p.pages.getD 0 [], ?_, getD_mem_of_ne p.pages [] 0 hne, ?_⟩ <;>
        simp [advanceStreams, hfetch]

/-- Claim C8 (amended): every event of a non-empty batch arises from a raw
event of a page of the partition that is active when the batch is returned,
with partition identifier set to that stream's name, timestamp
time.Unix(ms/1000, (ms%1000)*1000000), and message equal to the raw message
with trailing newline and tab characters removed (other trailing whitespace
such as spaces is kept). -/
theorem nextLogBatch_translates (s : ViewerState)
    (h : (NextLogBatch s).1 ≠ []) :
    ∃ p page, (NextLogBatch s).2.1.stream = some p
      ∧ page ∈ p.pages
      ∧ (NextLogBatch s).1 = page.map (fun ev =>
          ⟨p.LogStreamName, timeUnixMs ev.Timestamp, trimRightNlTab ev.Message⟩) := by
  obtain ⟨g, streams, st, tok⟩ := s
  cases st with
  | none =>
    simp only [NextLogBatch] at h ⊢
    obtain ⟨p, page, h1, h2, h3⟩ := advanceStreams_translates g streams tok h
    exact ⟨p, page, h1, h2, by simpa [translateEvent] using h3⟩
  | some p =>
    by_cases hpage : (p.pages.getD (pageIndex tok) []).isEmpty = true
    · have hfetch : fetchActive p tok = none := by
        simp only [fetchActive]
        rw [if_pos hpage]
      simp only [NextLogBatch, hfetch] at h ⊢
      obtain ⟨q, page, h1, h2, h3⟩ := advanceStreams_translates g streams tok h
      exact ⟨q, page, h1, h2, by simpa [translateEvent] using h3⟩
    · have hne : p.pages.getD (pageIndex tok) [] ≠ [] := by
        intro habs
        rw [← List.isEmpty_iff] at habs
        exact hpage habs
      have hfetch : fetchActive p tok
          = some (p.pages.getD (pageIndex tok) [], pageIndex tok + 1) := by
        simp only [fetchActive]
        rw [if_neg hpage]
      refine ⟨p, p.pages.getD (pageIndex tok) [], ?_,
        getD_mem_of_ne p.pages [] _ hne, ?_⟩ <;>
        simp [NextLogBatch, hfetch, translateEvent]

/-- Witness for the event-translation theorem at a concrete input. -/
theorem nextLogBatch_translates_witness :
    (NextLogBatch vsTrail).1 ≠ []
    ∧ ∃ p page, (NextLogBatch vsTrail).2.1.stream = some p
        ∧ page ∈ p.pages
        ∧ (NextLogBatch vsTrail).1 = page.map (fun ev =>
            ⟨p.LogStreamName, timeUnixMs ev.Timestamp, trimRightNlTab ev.Message⟩) :=
  ⟨by decide, nextLogBatch_translates vsTrail (by decide)⟩

/-- Claim C8 (counterexample): the translated message keeps a trailing space:
TrimRight with cutset newline-and-tab removes the trailing newline but not
the space before it, so the message is not trimmed of all trailing
whitespace as the claim states. -/
theorem nextLogBatch_keeps_trailing_space :
    (NextLogBatch vsTrail).1 = [⟨"s1", ⟨1, 500000000⟩, "hi "⟩]
    ∧ trimTrailingWhitespaceSpec "hi \n" = "hi"
    ∧ ("hi " : String) ≠ "hi" := by
  decide

end Lambda
